import Mathlib

/-!
# mongostore: a session store backed by a document collection

A shallow embedding of `mongostore.go`.  Go pointers that the code mutates
(`*sessions.Session`, the collection behind `*mongo.Collection`, the
`http.ResponseWriter`) are threaded explicitly: every operation returns the
updated values next to its Go result.

External collaborators are modelled through the calls the store makes on them:

* the codecs (`securecookie.Codec`) are records of functions;
* the collection is a map keyed by `_id`, together with a fault oracle for
  driver-level failures and the log of the calls issued on it;
* the token carrier's `SetToken` calls are recorded on the response writer;
* the random source and the wall clock are inputs of `Save`.
-/

namespace mongostore

/-! ## Values and errors -/

/-- An instant, as held by a Go time.Time value. -/
abbrev Time := Int

/-- A dynamically typed Go value, as stored in the values mapping of a session. -/
inductive Value where
  | null
  | bool (b : Bool)
  | int (n : Int)
  | str (s : String)
  | time (t : Time)
deriving DecidableEq, Repr

/-- The values mapping of a session, a Go map from interface to interface,
as an association list searched from the front. -/
abbrev Values := List (Value × Value)

/-- Map index expression: the value bound to a key together with the comma-ok flag,
as an option. -/
def Values.index (v : Values) (k : Value) : Option Value :=
  match v with
  | [] => none
  | (k1, x) :: rest => if k1 = k then some x else Values.index rest k

/-- A Go error value. -/
inductive Error where
  | text (msg : String)
  | multi (msgs : List String)
deriving DecidableEq, Repr

/-- The Error method of an error value. -/
def Error.message : Error → String
  | .text msg => msg
  | .multi msgs => String.intercalate "; " msgs

/-- The package-level error variable of the source. -/
def ErrInvalidId : Error := .text "mgostore: invalid session id"

/-- The driver error of a find-one call that matches no document. -/
def ErrNoDocuments : Error := .text "mongo: no documents in result"

/-- The error securecookie reports for an empty codec list. -/
def errNoCodecs : Error := .text "securecookie: no codecs provided"

/-- The error net/http reports for a cookie that is not in the request. -/
def ErrNoCookie : Error := .text "http: named cookie not present"

/-! ## Contexts, requests, options -/

/-- A context.Context: the two empty contexts of the standard library, or a
context derived for a request (tagged so that distinct requests differ). -/
inductive Context where
  | Background
  | TODO
  | derived (tag : Nat)
deriving DecidableEq, Repr

/-- An inbound http.Request: its context and its cookies. -/
structure Request where
  ctx : Context
  cookies : List (String × String)
deriving DecidableEq, Repr

/-- The Context method of a request. -/
def Request.Context (r : Request) : Context := r.ctx

namespace sessions

/-- The options record of the session framework. -/
structure Options where
  Path : String
  Domain : String
  MaxAge : Int
  Secure : Bool
  HttpOnly : Bool
  SameSite : Int
deriving DecidableEq, Repr

/-- The session object of the session framework.  The back pointer to the
store is left out, and the options pointer is taken to be set, as it is on
every session that New returns. -/
structure Session where
  ID : String
  Values : Values
  Options : Options
  IsNew : Bool
  name : String
deriving DecidableEq, Repr

/-- The Name method of a session. -/
def Session.Name (s : Session) : String := s.name

end sessions

/-- Session object stored in the collection. -/
structure Session where
  Id : String
  Data : String
  Modified : Time
deriving DecidableEq, Repr

/-! ## The codec set -/

/-- A securecookie.Codec, seen through the calls the store makes on it: Encode
and Decode at the two dynamic types the store passes (a string for the
identifier, a map for the values).  A failed Decode leaves its destination
untouched.  The second constructor is a codec whose dynamic type is
SecureCookie, which also has the MaxAge method. -/
inductive Codec where
  | plain (EncodeString : String → String → Except Error String)
      (DecodeString : String → String → Except Error String)
      (EncodeValues : String → Values → Except Error String)
      (DecodeValues : String → String → Except Error Values)
  | secure (EncodeString : String → String → Except Error String)
      (DecodeString : String → String → Except Error String)
      (EncodeValues : String → Values → Except Error String)
      (DecodeValues : String → String → Except Error Values)
      (MaxAge : Int → Codec)

/-- Encode of a codec on a string. -/
def Codec.EncodeString : Codec → String → String → Except Error String
  | .plain f _ _ _ => f
  | .secure f _ _ _ _ => f

/-- Decode of a codec into a string. -/
def Codec.DecodeString : Codec → String → String → Except Error String
  | .plain _ f _ _ => f
  | .secure _ f _ _ _ => f

/-- Encode of a codec on a values mapping. -/
def Codec.EncodeValues : Codec → String → Values → Except Error String
  | .plain _ _ f _ => f
  | .secure _ _ f _ _ => f

/-- Decode of a codec into a values mapping. -/
def Codec.DecodeValues : Codec → String → String → Except Error Values
  | .plain _ _ _ f => f
  | .secure _ _ _ f _ => f

/-- The loop shared by securecookie.EncodeMulti and securecookie.DecodeMulti:
the first codec that succeeds gives the result, the errors of the others are
collected. -/
def multiLoop {α : Type} (run : Codec → Except Error α) :
    List Codec → List String → Except Error α
  | [], errs => .error (.multi errs)
  | c :: rest, errs =>
    match run c with
    | .ok a => .ok a
    | .error e => multiLoop run rest (errs ++ [e.message])

/-- The library function securecookie.EncodeMulti or DecodeMulti over a codec list. -/
def multi {α : Type} (run : Codec → Except Error α) (codecs : List Codec) :
    Except Error α :=
  if codecs.length = 0 then .error errNoCodecs else multiLoop run codecs []

/-- The call securecookie.EncodeMulti(name, id, codecs...) on a string. -/
def EncodeMultiString (name : String) (value : String) (codecs : List Codec) :
    Except Error String :=
  multi (fun c => c.EncodeString name value) codecs

/-- The call securecookie.DecodeMulti(name, value, dst, codecs...) into a string. -/
def DecodeMultiString (name : String) (value : String) (codecs : List Codec) :
    Except Error String :=
  multi (fun c => c.DecodeString name value) codecs

/-- The call securecookie.EncodeMulti(name, values, codecs...) on a values mapping. -/
def EncodeMultiValues (name : String) (value : Values) (codecs : List Codec) :
    Except Error String :=
  multi (fun c => c.EncodeValues name value) codecs

/-- The call securecookie.DecodeMulti(name, value, dst, codecs...) into a values
mapping. -/
def DecodeMultiValues (name : String) (value : String) (codecs : List Codec) :
    Except Error Values :=
  multi (fun c => c.DecodeValues name value) codecs

/-! ## Unpadded base32 -/

/-- The alphabet of base32.StdEncoding. -/
def encodeStd : List Char := "ABCDEFGHIJKLMNOPQRSTUVWXYZ234567".toList

/-- The table lookup enc.encode[b&31] of the base32 encoder. -/
def encodeDigit (b : Nat) : Char := encodeStd.getD (b &&& 31) 'A'

/-- Unpack a quantum of at most five source bytes into eight 5-bit blocks.  A
byte the quantum does not have contributes zero bits, which is what the
fall-through switch of the encoder leaves in the block array; byte shifts wrap
at eight bits. -/
def unpackQuantum (src : List Nat) : List Nat :=
  let s0 := src.getD 0 0
  let s1 := src.getD 1 0
  let s2 := src.getD 2 0
  let s3 := src.getD 3 0
  let s4 := src.getD 4 0
  [ s0 >>> 3,
    ((s1 >>> 6) &&& 0x1F) ||| (((s0 <<< 2) % 256) &&& 0x1F),
    (s1 >>> 1) &&& 0x1F,
    ((s2 >>> 4) &&& 0x1F) ||| (((s1 <<< 4) % 256) &&& 0x1F),
    (s3 >>> 7) ||| (((s2 <<< 1) % 256) &&& 0x1F),
    (s3 >>> 2) &&& 0x1F,
    (s4 >>> 5) ||| (((s3 <<< 3) % 256) &&& 0x1F),
    s4 &&& 0x1F ]

/-- The encoding loop of base32 without padding: every full quantum of five
bytes gives eight digits, a final quantum of n bytes gives (8n+4)/5 digits. -/
def encodeBlocks : List Nat → List Char
  | [] => []
  | s0 :: s1 :: s2 :: s3 :: s4 :: rest =>
    (unpackQuantum [s0, s1, s2, s3, s4]).map encodeDigit ++ encodeBlocks rest
  | src => ((unpackQuantum src).take ((src.length * 8 + 4) / 5)).map encodeDigit

/-- The method EncodeToString of the package variable base32RawStdEncoding,
which is base32.StdEncoding.WithPadding(base32.NoPadding). -/
def base32RawStdEncoding.EncodeToString (src : List Nat) : String :=
  String.mk (encodeBlocks src)

/-- RFC 4648, section 6: the 40-bit group formed by concatenating five 8-bit
input groups, left to right; when fewer than five are left, zero bits are added
on the right. -/
def rfcGroup40 (q : List Nat) : Nat :=
  q.getD 0 0 * 2 ^ 32 + q.getD 1 0 * 2 ^ 24 + q.getD 2 0 * 2 ^ 16 + q.getD 3 0 * 2 ^ 8
    + q.getD 4 0

/-- RFC 4648, section 6: the 40 bits seen as eight concatenated 5-bit groups;
this is the value of group i, counted from the left. -/
def rfcGroup5 (q : List Nat) (i : Nat) : Nat := rfcGroup40 q / 2 ^ (5 * (7 - i)) % 32

/-- RFC 4648, table 3: the character of a 5-bit value. -/
def rfcDigit (v : Nat) : Char := encodeStd.getD v 'A'

/-- Base32 as RFC 4648 words it, without the padding characters: every full
group of five bytes gives eight characters; a final group of one, two, three
or four bytes gives two, four, five or seven. -/
def rfcBase32 : List Nat → List Char
  | [] => []
  | s0 :: s1 :: s2 :: s3 :: s4 :: rest =>
    (List.range 8).map (fun i => rfcDigit (rfcGroup5 [s0, s1, s2, s3, s4] i)) ++ rfcBase32 rest
  | src => (List.range ((src.length * 8 + 4) / 5)).map (fun i => rfcDigit (rfcGroup5 src i))

/-- A character of the base32 alphabet: A to Z or 2 to 7. -/
def isBase32Char (c : Char) : Prop :=
  ('A' ≤ c ∧ c ≤ 'Z') ∨ ('2' ≤ c ∧ c ≤ '7')

/-! ## The collection -/

/-- A bson.D filter document with string values. -/
abbrev bsonD := List (String × String)

/-- The driver type options.IndexOptions, with the fields the store sets. -/
structure IndexOptions where
  Background : Option Bool
  Sparse : Option Bool
  ExpireAfterSeconds : Option Int
deriving DecidableEq, Repr

/-- The driver type mongo.IndexModel. -/
structure IndexModel where
  Keys : List (String × Int)
  Options : IndexOptions
deriving DecidableEq, Repr

/-- A call on the collection handle, with the context it was given. -/
inductive DbCall where
  | FindOne (ctx : Context) (filter : bsonD)
  | UpdateByID (ctx : Context) (id : String) (set : Session) (upsert : Bool)
  | DeleteOne (ctx : Context) (filter : bsonD)
  | CreateOne (ctx : Context) (model : IndexModel)
deriving DecidableEq, Repr

/-- The context a call was given. -/
def DbCall.ctx : DbCall → Context
  | .FindOne ctx _ => ctx
  | .UpdateByID ctx _ _ _ => ctx
  | .DeleteOne ctx _ => ctx
  | .CreateOne ctx _ => ctx

/-- The collection behind a mongo.Collection handle: the documents keyed by
their primary key, the indexes, an oracle that says which calls fail at the
driver level (a failed call changes nothing), and the log of the calls made. -/
structure Collection where
  docs : String → Option Session
  indexes : List IndexModel
  fault : DbCall → Option Error
  log : List DbCall

/-- The primary key a filter of the shape built by makeFilterByID selects. -/
def filterID : bsonD → Option String
  | [(k, v)] => if k = "_id" then some v else none
  | _ => none

/-- The driver error for a filter the model does not interpret. -/
def errBadFilter : Error := .text "mongo: unsupported filter"

/-- The call FindOne(ctx, filter).Decode(&s). -/
def Collection.FindOne (c : Collection) (ctx : Context) (filter : bsonD) :
    Except Error Session × Collection :=
  let call := DbCall.FindOne ctx filter
  let c1 := { c with log := c.log ++ [call] }
  match c.fault call with
  | some e => (.error e, c1)
  | none =>
    match filterID filter with
    | none => (.error errBadFilter, c1)
    | some id =>
      match c.docs id with
      | none => (.error ErrNoDocuments, c1)
      | some s => (.ok s, c1)

/-- The call UpdateByID(ctx, id, bson.M with $set, options): with the upsert
option the document keyed by id holds the fields that were set afterwards; its
primary key is id. -/
def Collection.UpdateByID (c : Collection) (ctx : Context) (id : String)
    (set : Session) (upsert : Bool) : Option Error × Collection :=
  let call := DbCall.UpdateByID ctx id set upsert
  let c1 := { c with log := c.log ++ [call] }
  match c.fault call with
  | some e => (some e, c1)
  | none =>
    if upsert || (c.docs id).isSome then
      (none, { c1 with docs := fun k => if k = id then some { set with Id := id } else c.docs k })
    else (none, c1)

/-- The call DeleteOne(ctx, filter): a filter that matches nothing is not an error. -/
def Collection.DeleteOne (c : Collection) (ctx : Context) (filter : bsonD) :
    Option Error × Collection :=
  let call := DbCall.DeleteOne ctx filter
  let c1 := { c with log := c.log ++ [call] }
  match c.fault call with
  | some e => (some e, c1)
  | none =>
    match filterID filter with
    | none => (some errBadFilter, c1)
    | some id => (none, { c1 with docs := fun k => if k = id then none else c.docs k })

/-- The call Indexes().CreateOne(ctx, model). -/
def Collection.CreateOne (c : Collection) (ctx : Context) (model : IndexModel) :
    Option Error × Collection :=
  let call := DbCall.CreateOne ctx model
  let c1 := { c with log := c.log ++ [call] }
  match c.fault call with
  | some e => (some e, c1)
  | none => (none, { c1 with indexes := c.indexes ++ [model] })

/-! ## The token carrier -/

/-- One call of the SetToken method of the token carrier. -/
structure SetTokenCall where
  name : String
  value : String
  options : sessions.Options
deriving DecidableEq, Repr

/-- The response writer, seen as the SetToken calls made on it so far. -/
abbrev ResponseWriter := List SetTokenCall

/-- The TokenGetSeter interface.  GetToken is a function of the request; a
SetToken call is recorded on the response writer. -/
structure TokenGetSeter where
  GetToken : Request → String → Except Error String

/-- The SetToken method: the call is appended to the response writer. -/
def TokenGetSeter.SetToken (_t : TokenGetSeter) (w : ResponseWriter) (name value : String)
    (options : sessions.Options) : ResponseWriter :=
  w ++ [{ name := name, value := value, options := options }]

/-- Modelled from the spec: the default token carrier CookieToken, whose
source file is not part of the sources at hand.  Its get operation returns the
cookie value for the name, or a not-present error. -/
def CookieToken : TokenGetSeter where
  GetToken := fun r name =>
    match r.cookies.lookup name with
    | some v => .ok v
    | none => .error ErrNoCookie

/-! ## The store -/

/-- MongoStore stores sessions in MongoDB. -/
structure MongoStore where
  Codecs : List Codec
  Options : sessions.Options
  Token : TokenGetSeter
  coll : Collection

/-- The random source and the wall clock, as one call of Save reads them.
GenerateRandomKey returns the empty (nil) slice when the system source fails. -/
structure Env where
  GenerateRandomKey : Nat → List Nat
  Now : Time

/-- What a method that works on a session pointer leaves behind: the session,
the returned error (none is nil) and the collection. -/
structure Effect where
  session : sessions.Session
  err : Option Error
  coll : Collection

/-- What Save leaves behind: as Effect, and the response writer. -/
structure SaveEffect where
  session : sessions.Session
  err : Option Error
  coll : Collection
  w : ResponseWriter

/-- The conversion int32(x) of a Go int: wrap around at 32 bits. -/
def int32 (x : Int) : Int := (x + 2 ^ 31) % 2 ^ 32 - 2 ^ 31

/-- The function sessions.NewSession, together with the assignment of the
options that follows it in New: no identifier, an empty values map, is-new
not set. -/
def sessions.NewSession (name : String) (opts : sessions.Options) : sessions.Session :=
  { ID := "", Values := [], Options := opts, IsNew := false, name := name }

/-- The filter that selects a document by its primary key. -/
def makeFilterByID (sessionID : String) : bsonD := [("_id", sessionID)]

/-- MaxAge sets the maximum age for the store and the underlying cookie
implementation. -/
def MongoStore.MaxAge (m : MongoStore) (age : Int) : MongoStore :=
  { m with
    Options := { m.Options with MaxAge := age }
    Codecs := m.Codecs.map fun codec =>
      match codec with
      | .secure _ _ _ _ setAge => setAge age
      | .plain _ _ _ _ => codec }

/-- The method load: find the record by id and decode its data into the values
of the session (New hands it a session whose values map is empty). -/
def MongoStore.load (m : MongoStore) (session : sessions.Session) : Effect :=
  match m.coll.FindOne Context.TODO (makeFilterByID session.ID) with
  | (.error err, coll) => { session := session, err := some err, coll := coll }
  | (.ok s, coll) =>
    match DecodeMultiValues session.Name s.Data m.Codecs with
    | .error err => { session := session, err := some err, coll := coll }
    | .ok values => { session := { session with Values := values }, err := none, coll := coll }

/-- The method upsert: compute the modified time, encode the values and write
the record by id with upsert semantics. -/
def MongoStore.upsert (m : MongoStore) (env : Env) (session : sessions.Session) : Effect :=
  let modified : Except Error Time :=
    match session.Values.index (.str "modified") with
    | some val =>
      match val with
      | .time t => .ok t
      | _ => .error (.text "mongostore: invalid modified value")
    | none => .ok env.Now
  match modified with
  | .error err => { session := session, err := some err, coll := m.coll }
  | .ok modified =>
    match EncodeMultiValues session.Name session.Values m.Codecs with
    | .error err => { session := session, err := some err, coll := m.coll }
    | .ok encoded =>
      let s : Session := { Id := session.ID, Data := encoded, Modified := modified }
      match m.coll.UpdateByID Context.TODO s.Id s true with
      | (some err, coll) => { session := session, err := some err, coll := coll }
      | (none, coll) => { session := session, err := none, coll := coll }

/-- The method delete: remove the record by id. -/
def MongoStore.delete (m : MongoStore) (session : sessions.Session) : Effect :=
  match m.coll.DeleteOne Context.TODO (makeFilterByID session.ID) with
  | (some err, coll) => { session := session, err := some err, coll := coll }
  | (none, coll) => { session := session, err := none, coll := coll }

/-- New returns a session for the given name without adding it to the registry. -/
def MongoStore.New (m : MongoStore) (r : Request) (name : String) : Effect :=
  let session := sessions.NewSession name
    { Path := m.Options.Path
      MaxAge := m.Options.MaxAge
      Domain := m.Options.Domain
      Secure := m.Options.Secure
      HttpOnly := m.Options.HttpOnly
      SameSite := m.Options.SameSite }
  let session := { session with IsNew := true }
  match m.Token.GetToken r name with
  | .error _ => { session := session, err := none, coll := m.coll }
  | .ok cook =>
    match DecodeMultiString name cook m.Codecs with
    | .error err => { session := session, err := some err, coll := m.coll }
    | .ok id =>
      let session := { session with ID := id }
      let loaded := m.load session
      match loaded.err with
      | none => { loaded with session := { loaded.session with IsNew := false } }
      | some _ => { loaded with err := none }

/-- Save saves all sessions registered for the current request. -/
def MongoStore.Save (m : MongoStore) (env : Env) (_r : Request) (w : ResponseWriter)
    (session : sessions.Session) : SaveEffect :=
  if session.Options.MaxAge < 0 then
    let deleted := m.delete session
    match deleted.err with
    | some err => { session := deleted.session, err := some err, coll := deleted.coll, w := w }
    | none =>
      { session := deleted.session, err := none, coll := deleted.coll
        w := m.Token.SetToken w session.Name "" session.Options }
  else
    let session :=
      if session.ID = "" then
        { session with
          ID := base32RawStdEncoding.EncodeToString (env.GenerateRandomKey 32) }
      else session
    let upserted := m.upsert env session
    match upserted.err with
    | some err => { session := upserted.session, err := some err, coll := upserted.coll, w := w }
    | none =>
      let session := upserted.session
      match EncodeMultiString session.Name session.ID m.Codecs with
      | .error err => { session := session, err := some err, coll := upserted.coll, w := w }
      | .ok encoded =>
        { session := session, err := none, coll := upserted.coll
          w := m.Token.SetToken w session.Name encoded session.Options }

/-- What NewMongoStore leaves behind: the store it returns (none when it
panics) and the collection. -/
structure Construction where
  store : Option MongoStore
  coll : Collection

/-- NewMongoStore returns a new MongoStore.  Set ensureTTL to true let the
database auto-remove expired object by maxAge.  The codec list is the result of
securecookie.CodecsFromPairs on the key pairs. -/
def NewMongoStore (CodecsFromPairs : List (List Nat) → List Codec) (c : Collection)
    (maxAge : Int) (ensureTTL : Bool) (keyPairs : List (List Nat)) : Construction :=
  let store : MongoStore :=
    { Codecs := CodecsFromPairs keyPairs
      Options := { Path := "/", MaxAge := maxAge, Domain := "", Secure := false,
                   HttpOnly := false, SameSite := 0 }
      Token := CookieToken
      coll := c }
  let store := store.MaxAge maxAge
  if ensureTTL then
    let background := true
    let sparse := true
    let expireAfter := int32 maxAge
    match c.CreateOne Context.Background
        { Keys := [("modified", 1)]
          Options := { Background := some background, Sparse := some sparse,
                       ExpireAfterSeconds := some expireAfter } } with
    | (some _, coll) => { store := none, coll := coll }
    | (none, coll) => { store := some { store with coll := coll }, coll := coll }
  else
    { store := some store, coll := c }

/-! ## Sample inputs -/

/-- The fresh session of the first step of New: is-new set, a copy of the
options of the store, no identifier and no values. -/
def MongoStore.fresh (m : MongoStore) (name : String) : sessions.Session :=
  { ID := "", Values := [], Options := m.Options, IsNew := true, name := name }

/-- The session New hands to load: the fresh session with the identifier that
was decoded from the token. -/
def MongoStore.candidate (m : MongoStore) (name id : String) : sessions.Session :=
  { ID := id, Values := [], Options := m.Options, IsNew := true, name := name }

/-- The session after the identifier step of the upsert path of Save: an empty
identifier is replaced by the base32 text of 32 bytes of the random source. -/
def assignID (env : Env) (s : sessions.Session) : sessions.Session :=
  if s.ID = "" then
    { s with ID := base32RawStdEncoding.EncodeToString (env.GenerateRandomKey 32) }
  else s

/-- The modified time upsert computes: the value under the reserved key when it
is a time, an error when it is something else, the wall clock when the key is
absent. -/
def modifiedOf (env : Env) (s : sessions.Session) : Except Error Time :=
  match s.Values.index (.str "modified") with
  | some (.time t) => .ok t
  | some _ => .error (.text "mongostore: invalid modified value")
  | none => .ok env.Now

/-- A sample values mapping. -/
def sampleValues : Values := [(.str "user", .str "alice")]

/-- A values mapping that pins the modified time. -/
def pinnedValues : Values := [(.str "modified", .time 42)]

/-- A values mapping whose reserved key holds a string, not a time. -/
def invalidValues : Values := [(.str "modified", .str "yesterday")]

/-- A sample codec: it passes a non-empty string through and knows two values
mappings. -/
def sampleCodec : Codec :=
  .plain
    (fun _ v => if v = "" then .error (.text "securecookie: the value is too short") else .ok v)
    (fun _ s => if s = "" then .error (.text "securecookie: the value is not valid") else .ok s)
    (fun _ v =>
      if v = sampleValues then .ok "user=alice"
      else if v = pinnedValues then .ok "modified=42"
      else .error (.text "securecookie: error encoding value"))
    (fun _ s =>
      if s = "user=alice" then .ok sampleValues
      else if s = "modified=42" then .ok pinnedValues
      else .error (.text "securecookie: the value is not valid"))

/-- The options of the sample store. -/
def sampleOptions : sessions.Options :=
  { Path := "/", Domain := "", MaxAge := 3600, Secure := false, HttpOnly := false, SameSite := 0 }

/-- An empty collection whose calls never fail at the driver level. -/
def emptyCollection : Collection :=
  { docs := fun _ => none, indexes := [], fault := fun _ => none, log := [] }

/-- A sample store over the empty collection. -/
def sampleStore : MongoStore :=
  { Codecs := [sampleCodec], Options := sampleOptions, Token := CookieToken,
    coll := emptyCollection }

/-- A request that carries one cookie. -/
def requestWith (name value : String) : Request :=
  { ctx := .derived 7, cookies := [(name, value)] }

/-- A random source that returns the bytes 0, 1, 2 and so on, and a fixed clock. -/
def sampleEnv : Env := { GenerateRandomKey := fun n => List.range n, Now := 1700000000 }

/-- A session named sid with the given identifier, values and max-age. -/
def sessionWith (id : String) (values : Values) (maxAge : Int) : sessions.Session :=
  { ID := id, Values := values, Options := { sampleOptions with MaxAge := maxAge },
    IsNew := false, name := "sid" }

/-- A collection with one record, whose delete-one calls fail at the driver level. -/
def faultyCollection : Collection :=
  { docs := fun k => if k = "ABC" then some { Id := "ABC", Data := "user=alice", Modified := 5 }
      else none
    indexes := []
    fault := fun call =>
      match call with
      | .DeleteOne _ _ => some (.text "client is disconnected")
      | _ => none
    log := [] }

/-- The sample store over the faulty collection. -/
def faultyStore : MongoStore :=
  { Codecs := [sampleCodec], Options := sampleOptions, Token := CookieToken,
    coll := faultyCollection }

/-- A collection with one record and no driver failures. -/
def oneRecordCollection : Collection :=
  { docs := fun k => if k = "ABC" then some { Id := "ABC", Data := "user=alice", Modified := 5 }
      else none
    indexes := []
    fault := fun _ => none
    log := [] }

/-- The sample store over the collection with one record. -/
def oneRecordStore : MongoStore :=
  { Codecs := [sampleCodec], Options := sampleOptions, Token := CookieToken,
    coll := oneRecordCollection }

/-! ## Theorems -/

/-- C3. Decode failure: when the request carries a token for the name and the
codec set fails to decode it under the name, New returns the session with
is-new set together with exactly the decoding error, and the collection is as
it was: no call was issued on it. -/
theorem New_decode_failure (m : MongoStore) (r : Request) (name cook : String) (e : Error)
    (htok : m.Token.GetToken r name = .ok cook)
    (hdec : DecodeMultiString name cook m.Codecs = .error e) :
    (m.New r name).session.IsNew = true ∧ (m.New r name).err = some e ∧
      (m.New r name).coll.log = m.coll.log ∧ (m.New r name).coll.docs = m.coll.docs := by
  simp [MongoStore.New, htok, hdec]

/-- Witness of C3 on the sample store: the empty cookie value does not decode. -/
theorem New_decode_failure_witness :
    (sampleStore.New (requestWith "sid" "") "sid").session.IsNew = true ∧
      (sampleStore.New (requestWith "sid" "") "sid").err
        = some (.multi ["securecookie: the value is not valid"]) ∧
      (sampleStore.New (requestWith "sid" "") "sid").coll.log = sampleStore.coll.log ∧
      (sampleStore.New (requestWith "sid" "") "sid").coll.docs = sampleStore.coll.docs :=
  New_decode_failure sampleStore (requestWith "sid" "") "sid" ""
    (.multi ["securecookie: the value is not valid"]) (by rfl) (by rfl)

/-- The filter built by makeFilterByID selects its identifier. -/
theorem filterID_makeFilterByID (id : String) : filterID (makeFilterByID id) = some id := by
  simp [filterID, makeFilterByID]

/-- The method load fails exactly in three cases: the find-one call fails at the
driver level, no record has the identifier, or the data of the record does not
decode under the name of the session. -/
theorem load_err_iff (m : MongoStore) (s : sessions.Session) :
    (m.load s).err ≠ none ↔
      (m.coll.fault (.FindOne .TODO (makeFilterByID s.ID)) ≠ none ∨
        m.coll.docs s.ID = none ∨
        ∃ rec e, m.coll.docs s.ID = some rec ∧
          DecodeMultiValues s.name rec.Data m.Codecs = .error e) := by
  cases hf : m.coll.fault (.FindOne .TODO (makeFilterByID s.ID)) with
  | some e => simp [MongoStore.load, Collection.FindOne, hf]
  | none =>
    cases hd : m.coll.docs s.ID with
    | none => simp [MongoStore.load, Collection.FindOne, filterID_makeFilterByID, hf, hd]
    | some rec =>
      cases hv : DecodeMultiValues s.name rec.Data m.Codecs with
      | error e =>
        simp [MongoStore.load, Collection.FindOne, filterID_makeFilterByID, hf, hd, hv,
          sessions.Session.Name]
      | ok v =>
        simp [MongoStore.load, Collection.FindOne, filterID_makeFilterByID, hf, hd, hv,
          sessions.Session.Name]

/-- New after the token decoded to an identifier: the outcome of load decides. -/
theorem New_of_decoded (m : MongoStore) (r : Request) (name cook id : String)
    (htok : m.Token.GetToken r name = .ok cook)
    (hdec : DecodeMultiString name cook m.Codecs = .ok id) :
    m.New r name =
      match (m.load (m.candidate name id)).err with
      | none =>
        { session := { (m.load (m.candidate name id)).session with IsNew := false }
          err := none
          coll := (m.load (m.candidate name id)).coll }
      | some _ =>
        { session := (m.load (m.candidate name id)).session
          err := none
          coll := (m.load (m.candidate name id)).coll } := by
  simp only [MongoStore.New, htok, hdec, MongoStore.candidate, sessions.NewSession]
  split <;> simp_all

/-- The method load never touches the identifier, the options, the is-new flag
or the name of the session. -/
theorem load_session (m : MongoStore) (s : sessions.Session) :
    (m.load s).session = { s with Values := (m.load s).session.Values } := by
  unfold MongoStore.load
  split
  · rfl
  · split <;> rfl

/-- A failed load leaves the session as it was. -/
theorem load_session_of_err (m : MongoStore) (s : sessions.Session)
    (h : (m.load s).err ≠ none) : (m.load s).session = s := by
  unfold MongoStore.load at h ⊢
  split
  · rfl
  · split
    · rfl
    · rename_i h1 _ _ h2
      simp [h1, h2] at h

/-- New after the token decoded to an identifier and load failed: is-new stays
set and the error is suppressed. -/
theorem New_of_load_failure (m : MongoStore) (r : Request) (name cook id : String)
    (htok : m.Token.GetToken r name = .ok cook)
    (hdec : DecodeMultiString name cook m.Codecs = .ok id)
    (hfail : (m.load (m.candidate name id)).err ≠ none) :
    (m.New r name).session.IsNew = true ∧ (m.New r name).err = none := by
  rw [New_of_decoded m r name cook id htok hdec]
  cases hl : (m.load (m.candidate name id)).err with
  | none => exact absurd hl hfail
  | some e =>
    have hs := load_session_of_err m (m.candidate name id) hfail
    simp only [hs]
    simp [MongoStore.candidate]

/-- C2. Soft-miss: when the token of the request decodes to an identifier and
loading fails (a driver error on find-one, no record with that identifier, or
record data that does not decode under the name), New returns a session with
is-new set and a nil error. -/
theorem New_soft_miss (m : MongoStore) (r : Request) (name cook id : String)
    (htok : m.Token.GetToken r name = .ok cook)
    (hdec : DecodeMultiString name cook m.Codecs = .ok id)
    (hload : m.coll.fault (.FindOne .TODO (makeFilterByID id)) ≠ none ∨
      m.coll.docs id = none ∨
      ∃ rec e, m.coll.docs id = some rec ∧
        DecodeMultiValues name rec.Data m.Codecs = .error e) :
    (m.New r name).session.IsNew = true ∧ (m.New r name).err = none :=
  New_of_load_failure m r name cook id htok hdec
    ((load_err_iff m (m.candidate name id)).2 hload)

/-- Witness of C2 on the sample store: the cookie decodes to an identifier that
has no record. -/
theorem New_soft_miss_witness :
    (sampleStore.New (requestWith "sid" "ABC") "sid").session.IsNew = true ∧
      (sampleStore.New (requestWith "sid" "ABC") "sid").err = none :=
  New_soft_miss sampleStore (requestWith "sid" "ABC") "sid" "ABC" "ABC" (by rfl) (by rfl)
    (Or.inr (Or.inl rfl))

/-- The collection after a find-one call: the call is logged, nothing else changes. -/
theorem FindOne_coll (c : Collection) (ctx : Context) (filter : bsonD) :
    (c.FindOne ctx filter).2 = { c with log := c.log ++ [.FindOne ctx filter] } := by
  simp only [Collection.FindOne]
  repeat (first | rfl | split)

/-- The method load issues exactly one call, a find-one by identifier under the
TODO context, and changes nothing else in the collection. -/
theorem load_coll (m : MongoStore) (s : sessions.Session) :
    (m.load s).coll =
      { m.coll with log := m.coll.log ++ [.FindOne .TODO (makeFilterByID s.ID)] } := by
  have h := FindOne_coll m.coll .TODO (makeFilterByID s.ID)
  simp only [MongoStore.load]
  split
  · rename_i heq
    rw [heq] at h
    exact h
  · rename_i heq
    rw [heq] at h
    split <;> exact h

/-- The method delete issues exactly one call, a delete-one by identifier under
the TODO context. -/
theorem delete_log (m : MongoStore) (s : sessions.Session) :
    (m.delete s).coll.log = m.coll.log ++ [.DeleteOne .TODO (makeFilterByID s.ID)] := by
  simp only [MongoStore.delete, Collection.DeleteOne, filterID_makeFilterByID]
  cases m.coll.fault (.DeleteOne .TODO (makeFilterByID s.ID)) <;> rfl

/-- The method upsert issues at most one call, an update-by-id under the TODO
context. -/
theorem upsert_log (m : MongoStore) (env : Env) (s : sessions.Session) :
    (m.upsert env s).coll.log = m.coll.log ∨
      ∃ rec, (m.upsert env s).coll.log = m.coll.log ++ [.UpdateByID .TODO s.ID rec true] := by
  simp only [MongoStore.upsert]
  split
  · exact Or.inl rfl
  · split
    · exact Or.inl rfl
    · rename_i modified _ _ encoded _
      refine Or.inr ⟨{ Id := s.ID, Data := encoded, Modified := modified }, ?_⟩
      simp only [Collection.UpdateByID]
      cases m.coll.fault
        (.UpdateByID .TODO s.ID { Id := s.ID, Data := encoded, Modified := modified } true) <;> rfl

/-- The calls New issues on the collection: none, or one find-one under the
TODO context. -/
theorem New_log (m : MongoStore) (r : Request) (name : String) :
    (m.New r name).coll.log = m.coll.log ∨
      ∃ id, (m.New r name).coll.log = m.coll.log ++ [.FindOne .TODO (makeFilterByID id)] := by
  cases htok : m.Token.GetToken r name with
  | error e => exact Or.inl (by simp [MongoStore.New, htok])
  | ok cook =>
    cases hdec : DecodeMultiString name cook m.Codecs with
    | error e => exact Or.inl (by simp [MongoStore.New, htok, hdec])
    | ok id =>
      refine Or.inr ⟨id, ?_⟩
      rw [New_of_decoded m r name cook id htok hdec]
      have h := load_coll m (m.candidate name id)
      split <;> simp only [h] <;> rfl

/-- The calls Save issues on the collection: one delete-one, or at most one
update-by-id, under the TODO context. -/
theorem Save_log (m : MongoStore) (env : Env) (r : Request) (w : ResponseWriter)
    (s : sessions.Session) :
    (m.Save env r w s).coll.log = m.coll.log ∨
      ∃ call, (m.Save env r w s).coll.log = m.coll.log ++ [call] ∧ call.ctx = .TODO := by
  by_cases hage : s.Options.MaxAge < 0
  · refine Or.inr ⟨.DeleteOne .TODO (makeFilterByID s.ID), ?_, rfl⟩
    have h := delete_log m s
    simp only [MongoStore.Save, hage, if_true]
    split <;> exact h
  · simp only [MongoStore.Save, hage, if_false]
    generalize hs2 : (if s.ID = "" then
      ({ s with ID := base32RawStdEncoding.EncodeToString (env.GenerateRandomKey 32) } :
        sessions.Session) else s) = s2
    have h := upsert_log m env s2
    have hcoll : ∀ (e : SaveEffect), e.coll = (m.upsert env s2).coll →
        e.coll.log = m.coll.log ∨
          ∃ call, e.coll.log = m.coll.log ++ [call] ∧ call.ctx = .TODO := by
      intro e he
      rw [he]
      rcases h with h | ⟨rec, h⟩
      · exact Or.inl h
      · exact Or.inr ⟨_, h, rfl⟩
    split
    · exact hcoll _ rfl
    · split <;> exact hcoll _ rfl

/-- C10, as the code has it. Every database call that New or Save issues (the
find-one of load, the update-by-id of upsert, the delete-one of delete) is
handed the TODO context of the standard library, whatever the context of the
request of the caller is; Save does not read its request at all. -/
theorem db_calls_use_TODO (m : MongoStore) (env : Env) (r : Request) (w : ResponseWriter)
    (s : sessions.Session) (name : String) :
    (∃ issued, (m.New r name).coll.log = m.coll.log ++ issued ∧
        ∀ call ∈ issued, call.ctx = Context.TODO) ∧
      (∃ issued, (m.Save env r w s).coll.log = m.coll.log ++ issued ∧
        ∀ call ∈ issued, call.ctx = Context.TODO) ∧
      (∀ r2 : Request, m.Save env r2 w s = m.Save env r w s) := by
  refine ⟨?_, ?_, fun _ => rfl⟩
  · rcases New_log m r name with h | ⟨id, h⟩
    · exact ⟨[], by simp [h], by simp⟩
    · exact ⟨_, h, by simp [DbCall.ctx]⟩
  · rcases Save_log m env r w s with h | ⟨call, h, hc⟩
    · exact ⟨[], by simp [h], by simp⟩
    · exact ⟨_, h, by simp [hc]⟩

/-- Counterexample to C10 as stated: New on a request whose context is a derived
one hands the find-one call the TODO context, not the context of the request. -/
theorem New_context_not_propagated :
    (sampleStore.New (requestWith "sid" "ABC") "sid").coll.log
        = [DbCall.FindOne Context.TODO (makeFilterByID "ABC")] ∧
      (DbCall.FindOne Context.TODO (makeFilterByID "ABC")).ctx
        ≠ (requestWith "sid" "ABC").Context := by
  refine ⟨by rfl, ?_⟩
  simp [DbCall.ctx, Request.Context, requestWith]

/-- Counterexample to C8 as stated: on a soft-miss (the cookie decodes to an
identifier that has no record) New returns a session with is-new set and a nil
error whose identifier is the decoded one, not the empty string. -/
theorem New_soft_miss_keeps_identifier :
    (sampleStore.New (requestWith "sid" "ABC") "sid").session.IsNew = true ∧
      (sampleStore.New (requestWith "sid" "ABC") "sid").err = none ∧
      (sampleStore.New (requestWith "sid" "ABC") "sid").session.ID = "ABC" ∧
      (sampleStore.New (requestWith "sid" "ABC") "sid").session.ID ≠ "" := by
  refine ⟨by rfl, by rfl, by rfl, ?_⟩
  decide

/-- C8, as the code has it. Whenever New returns a session with is-new set, the
session is the fresh session of the first step except for its identifier: it
is the fresh session itself, with an empty identifier, when the request has no
token or the token fails to decode, and on a soft-miss it is the fresh session
with the identifier decoded from the token. -/
theorem New_isNew_session (m : MongoStore) (r : Request) (name : String)
    (hnew : (m.New r name).session.IsNew = true) :
    (m.New r name).session = m.candidate name (m.New r name).session.ID ∧
      (∀ e, m.Token.GetToken r name = .error e → (m.New r name).session = m.fresh name) ∧
      (∀ cook e, m.Token.GetToken r name = .ok cook →
        DecodeMultiString name cook m.Codecs = .error e →
        (m.New r name).session = m.fresh name) ∧
      (∀ cook id, m.Token.GetToken r name = .ok cook →
        DecodeMultiString name cook m.Codecs = .ok id →
        (m.New r name).session = m.candidate name id ∧ (m.New r name).session.ID = id) := by
  cases htok : m.Token.GetToken r name with
  | error e0 =>
    have h : (m.New r name).session = m.candidate name "" := by
      simp [MongoStore.New, htok, MongoStore.candidate, sessions.NewSession]
    rw [h]
    refine ⟨rfl, fun _ _ => rfl, fun _ _ hc => by simp at hc, fun _ _ hc => by simp at hc⟩
  | ok cook0 =>
    cases hdec : DecodeMultiString name cook0 m.Codecs with
    | error e0 =>
      have h : (m.New r name).session = m.candidate name "" := by
        simp [MongoStore.New, htok, hdec, MongoStore.candidate, sessions.NewSession]
      rw [h]
      refine ⟨rfl, fun _ hc => by simp at hc, fun _ _ _ _ => rfl, ?_⟩
      intro cook id hc hd
      injection hc with hc
      subst hc
      rw [hdec] at hd
      simp at hd
    | ok id0 =>
      have h : (m.New r name).session = m.candidate name id0 := by
        have hN := New_of_decoded m r name cook0 id0 htok hdec
        cases hl : (m.load (m.candidate name id0)).err with
        | none =>
          rw [hN, hl] at hnew
          simp at hnew
        | some e =>
          rw [hN, hl]
          exact load_session_of_err m (m.candidate name id0) (by simp [hl])
      rw [h]
      refine ⟨rfl, fun _ hc => by simp at hc, ?_, ?_⟩
      · intro cook e hc hd
        injection hc with hc
        subst hc
        rw [hdec] at hd
        simp at hd
      · intro cook id hc hd
        injection hc with hc
        subst hc
        rw [hdec] at hd
        injection hd with hd
        subst hd
        exact ⟨rfl, rfl⟩

/-- Witness of the amended C8 on the sample store, at a soft-miss. -/
theorem New_isNew_session_witness :
    (sampleStore.New (requestWith "sid" "ABC") "sid").session
      = sampleStore.candidate "sid" "ABC" :=
  (New_isNew_session sampleStore (requestWith "sid" "ABC") "sid" (by rfl)).1

/-- The identifier step changes nothing but the identifier. -/
theorem assignID_fields (env : Env) (s : sessions.Session) :
    (assignID env s).name = s.name ∧ (assignID env s).Values = s.Values ∧
      (assignID env s).Options = s.Options ∧ (assignID env s).IsNew = s.IsNew := by
  unfold assignID
  split <;> exact ⟨rfl, rfl, rfl, rfl⟩

/-- The method upsert returns the session it was given. -/
theorem upsert_session (m : MongoStore) (env : Env) (s : sessions.Session) :
    (m.upsert env s).session = s := by
  simp only [MongoStore.upsert]
  repeat (first | rfl | split)

/-- A successful upsert: the modified time was computed, the values encoded,
the update-by-id call did not fail, and the record keyed by the identifier holds
the encoded values and the modified time. -/
theorem upsert_success (m : MongoStore) (env : Env) (s : sessions.Session)
    (hok : (m.upsert env s).err = none) :
    ∃ modified data,
      modifiedOf env s = .ok modified ∧
      EncodeMultiValues s.name s.Values m.Codecs = .ok data ∧
      m.coll.fault (.UpdateByID .TODO s.ID { Id := s.ID, Data := data, Modified := modified }
        true) = none ∧
      (m.upsert env s).coll =
        { m.coll with
          docs := fun k =>
            if k = s.ID then some { Id := s.ID, Data := data, Modified := modified }
            else m.coll.docs k
          log := m.coll.log ++
            [.UpdateByID .TODO s.ID { Id := s.ID, Data := data, Modified := modified } true] } := by
  simp only [MongoStore.upsert, sessions.Session.Name] at hok ⊢
  cases hm : s.Values.index (.str "modified") with
  | none =>
    simp only [hm] at hok ⊢
    cases he : EncodeMultiValues s.name s.Values m.Codecs with
    | error e => simp [he] at hok
    | ok data =>
      simp only [he] at hok ⊢
      cases hf : m.coll.fault
          (.UpdateByID .TODO s.ID { Id := s.ID, Data := data, Modified := env.Now } true) with
      | some e => simp [Collection.UpdateByID, hf] at hok
      | none =>
        exact ⟨env.Now, data, by simp [modifiedOf, hm], rfl, hf,
          by simp [Collection.UpdateByID, hf]⟩
  | some val =>
    cases val with
    | time t =>
      simp only [hm] at hok ⊢
      cases he : EncodeMultiValues s.name s.Values m.Codecs with
      | error e => simp [he] at hok
      | ok data =>
        simp only [he] at hok ⊢
        cases hf : m.coll.fault
            (.UpdateByID .TODO s.ID { Id := s.ID, Data := data, Modified := t } true) with
        | some e => simp [Collection.UpdateByID, hf] at hok
        | none =>
          exact ⟨t, data, by simp [modifiedOf, hm], rfl, hf,
            by simp [Collection.UpdateByID, hf]⟩
    | null => simp [hm] at hok
    | bool b => simp [hm] at hok
    | int n => simp [hm] at hok
    | str x => simp [hm] at hok

/-- Save on the upsert path, in terms of the identifier step and upsert. -/
theorem Save_upsert_path (m : MongoStore) (env : Env) (r : Request) (w : ResponseWriter)
    (s : sessions.Session) (hage : 0 ≤ s.Options.MaxAge) :
    m.Save env r w s =
      match (m.upsert env (assignID env s)).err with
      | some err =>
        { session := assignID env s, err := some err
          coll := (m.upsert env (assignID env s)).coll, w := w }
      | none =>
        match EncodeMultiString s.name (assignID env s).ID m.Codecs with
        | .error err =>
          { session := assignID env s, err := some err
            coll := (m.upsert env (assignID env s)).coll, w := w }
        | .ok encoded =>
          { session := assignID env s, err := none
            coll := (m.upsert env (assignID env s)).coll
            w := w ++ [{ name := s.name, value := encoded, options := s.Options }] } := by
  have hlt : ¬ s.Options.MaxAge < 0 := not_lt.mpr hage
  obtain ⟨hn, _, ho, _⟩ := assignID_fields env s
  simp only [MongoStore.Save, hlt, if_false, sessions.Session.Name, TokenGetSeter.SetToken]
  rw [show (if s.ID = "" then
      ({ s with ID := base32RawStdEncoding.EncodeToString (env.GenerateRandomKey 32) } :
        sessions.Session) else s) = assignID env s from rfl]
  simp only [upsert_session, hn, ho]

/-- A successful Save on the upsert path: what was computed, what the collection
holds afterwards and what the token carrier was handed. -/
theorem Save_success (m : MongoStore) (env : Env) (r : Request) (w : ResponseWriter)
    (s : sessions.Session) (hage : 0 ≤ s.Options.MaxAge)
    (hok : (m.Save env r w s).err = none) :
    ∃ modified data cookie,
      modifiedOf env s = .ok modified ∧
      EncodeMultiValues s.name s.Values m.Codecs = .ok data ∧
      EncodeMultiString s.name (assignID env s).ID m.Codecs = .ok cookie ∧
      (m.Save env r w s).session = assignID env s ∧
      (m.Save env r w s).w = w ++ [{ name := s.name, value := cookie, options := s.Options }] ∧
      (m.Save env r w s).coll =
        { m.coll with
          docs := fun k =>
            if k = (assignID env s).ID then
              some { Id := (assignID env s).ID, Data := data, Modified := modified }
            else m.coll.docs k
          log := m.coll.log ++
            [.UpdateByID .TODO (assignID env s).ID
              { Id := (assignID env s).ID, Data := data, Modified := modified } true] } := by
  obtain ⟨hn, hv, _, _⟩ := assignID_fields env s
  rw [Save_upsert_path m env r w s hage] at hok ⊢
  cases hu : (m.upsert env (assignID env s)).err with
  | some e => simp [hu] at hok
  | none =>
    obtain ⟨modified, data, h1, h2, _, h4⟩ := upsert_success m env (assignID env s) hu
    simp only [hu] at hok ⊢
    cases hc : EncodeMultiString s.name (assignID env s).ID m.Codecs with
    | error e => simp [hc] at hok
    | ok cookie =>
      refine ⟨modified, data, cookie, ?_, ?_, rfl, rfl, rfl, h4⟩
      · simpa [modifiedOf, hv] using h1
      · simpa [hn, hv] using h2

/-- The encoder on the test vectors of RFC 4648 (the ASCII bytes of f, fo, foo,
foob, fooba, foobar), without padding. -/
theorem EncodeToString_rfc4648 :
    base32RawStdEncoding.EncodeToString [] = "" ∧
      base32RawStdEncoding.EncodeToString [102] = "MY" ∧
      base32RawStdEncoding.EncodeToString [102, 111] = "MZXQ" ∧
      base32RawStdEncoding.EncodeToString [102, 111, 111] = "MZXW6" ∧
      base32RawStdEncoding.EncodeToString [102, 111, 111, 98] = "MZXW6YQ" ∧
      base32RawStdEncoding.EncodeToString [102, 111, 111, 98, 97] = "MZXW6YTB" ∧
      base32RawStdEncoding.EncodeToString [102, 111, 111, 98, 97, 114] = "MZXW6YTBOI" := by
  decide

/-- Every digit the encoder emits is a character of the base32 alphabet. -/
theorem encodeDigit_isBase32Char (b : Nat) : isBase32Char (encodeDigit b) := by
  have h : b &&& 31 < 2 ^ 5 := Nat.and_lt_two_pow b (by norm_num)
  unfold encodeDigit
  generalize b &&& 31 = i at h
  have h32 : i < 32 := by simpa using h
  interval_cases i <;> simp [encodeStd, isBase32Char]

/-- A source that does not start with a full quantum has fewer than five bytes. -/
theorem length_lt_five (src : List Nat)
    (h : ∀ s0 s1 s2 s3 s4 rest, src = s0 :: s1 :: s2 :: s3 :: s4 :: rest → False) :
    src.length < 5 := by
  rcases src with _ | ⟨a, _ | ⟨b, _ | ⟨c, _ | ⟨d, _ | ⟨e, rest⟩⟩⟩⟩⟩
  · simp
  · simp
  · simp
  · simp
  · simp
  · exact absurd rfl (fun hEq => h a b c d e rest hEq)

/-- The encoder emits only characters of the base32 alphabet. -/
theorem encodeBlocks_chars (src : List Nat) : ∀ c ∈ encodeBlocks src, isBase32Char c := by
  induction src using encodeBlocks.induct with
  | case1 => simp [encodeBlocks]
  | case2 s0 s1 s2 s3 s4 rest ih =>
    intro c hc
    simp only [encodeBlocks, List.mem_append, List.mem_map] at hc
    rcases hc with ⟨b, _, rfl⟩ | hc
    · exact encodeDigit_isBase32Char b
    · exact ih c hc
  | case3 src h1 h2 =>
    intro c hc
    rw [encodeBlocks] at hc
    · simp only [List.mem_map] at hc
      obtain ⟨b, _, rfl⟩ := hc
      exact encodeDigit_isBase32Char b
    · exact h1
    · exact h2

/-- The length of the unpadded encoding of n bytes is 8(n/5) + (8(n mod 5) + 4)/5,
the EncodedLen of the library. -/
theorem encodeBlocks_length (src : List Nat) :
    (encodeBlocks src).length = src.length / 5 * 8 + (src.length % 5 * 8 + 4) / 5 := by
  induction src using encodeBlocks.induct with
  | case1 => simp [encodeBlocks]
  | case2 s0 s1 s2 s3 s4 rest ih =>
    simp only [encodeBlocks, List.length_append, List.length_map, ih, List.length_cons,
      List.length_nil, unpackQuantum]
    omega
  | case3 src h1 h2 =>
    have hlt := length_lt_five src h2
    rw [encodeBlocks]
    · simp only [List.length_map, List.length_take, unpackQuantum, List.length_cons,
        List.length_nil]
      omega
    · exact h1
    · exact h2

/-- A bitwise or of a value below a power of two with a multiple of that power
is their sum. -/
theorem or_eq_add_of_low (k a v b : Nat) (ha : a < 2 ^ k) (hb : b = 2 ^ k * v) :
    a ||| b = a + b := by
  subst hb
  rw [Nat.or_comm, ← Nat.mul_add_lt_is_or ha]
  omega

/-- Masking with 31 keeps the five low bits. -/
theorem and_31 (x : Nat) : x &&& 31 = x % 32 := Nat.and_pow_two_sub_one_eq_mod x 5

/-- The eight blocks the encoder unpacks from a quantum of bytes are, after the
mask of the table lookup, the eight 5-bit groups of RFC 4648. -/
theorem unpackQuantum_rfc (q : List Nat) (hq : ∀ i, q.getD i 0 < 256) :
    (unpackQuantum q).map (fun b => b &&& 31) = (List.range 8).map (rfcGroup5 q) := by
  have h0 := hq 0
  have h1 := hq 1
  have h2 := hq 2
  have h3 := hq 3
  have h4 := hq 4
  simp only [unpackQuantum, List.map, List.range, List.range.loop, rfcGroup5, rfcGroup40]
  generalize q.getD 0 0 = s0 at h0
  generalize q.getD 1 0 = s1 at h1
  generalize q.getD 2 0 = s2 at h2
  generalize q.getD 3 0 = s3 at h3
  generalize q.getD 4 0 = s4 at h4
  have e1 : ((s1 >>> 6) &&& 0x1F) ||| (((s0 <<< 2) % 256) &&& 0x1F)
      = s1 / 64 + (s0 % 8) * 4 := by
    rw [or_eq_add_of_low 2 _ (s0 % 8) _ _ _]
    all_goals simp only [and_31, Nat.shiftRight_eq_div_pow, Nat.shiftLeft_eq]
    all_goals omega
  have e3 : ((s2 >>> 4) &&& 0x1F) ||| (((s1 <<< 4) % 256) &&& 0x1F)
      = s2 / 16 + (s1 % 2) * 16 := by
    rw [or_eq_add_of_low 4 _ (s1 % 2) _ _ _]
    all_goals simp only [and_31, Nat.shiftRight_eq_div_pow, Nat.shiftLeft_eq]
    all_goals omega
  have e4 : (s3 >>> 7) ||| (((s2 <<< 1) % 256) &&& 0x1F) = s3 / 128 + (s2 % 16) * 2 := by
    rw [or_eq_add_of_low 1 _ (s2 % 16) _ _ _]
    all_goals simp only [and_31, Nat.shiftRight_eq_div_pow, Nat.shiftLeft_eq]
    all_goals omega
  have e6 : (s4 >>> 5) ||| (((s3 <<< 3) % 256) &&& 0x1F) = s4 / 32 + (s3 % 4) * 8 := by
    rw [or_eq_add_of_low 3 _ (s3 % 4) _ _ _]
    all_goals simp only [and_31, Nat.shiftRight_eq_div_pow, Nat.shiftLeft_eq]
    all_goals omega
  rw [e1, e3, e4, e6]
  simp only [and_31, Nat.shiftRight_eq_div_pow]
  norm_num
  refine ⟨?_, ?_, ?_, ?_, ?_, ?_, ?_, ?_⟩ <;> omega

/-- In a list of bytes every position, also one past the end, reads below 256. -/
theorem getD_lt_of_bytes (src : List Nat) (h : ∀ b ∈ src, b < 256) (i : Nat) :
    src.getD i 0 < 256 := by
  induction src generalizing i with
  | nil => simp
  | cons a rest ih =>
    cases i with
    | zero => simpa using h a (by simp)
    | succ j => simpa using ih (fun b hb => h b (by simp [hb])) j

/-- The eight digits the encoder emits for a quantum are the characters of the
eight 5-bit groups of RFC 4648. -/
theorem quantum_digits_rfc (q : List Nat) (h : ∀ b ∈ q, b < 256) :
    (unpackQuantum q).map encodeDigit
      = (List.range 8).map (fun i => rfcDigit (rfcGroup5 q i)) := by
  have hq := unpackQuantum_rfc q (getD_lt_of_bytes q h)
  have hmask : (unpackQuantum q).map encodeDigit
      = ((unpackQuantum q).map (fun b => b &&& 31)).map rfcDigit := by
    simp [List.map_map, Function.comp_def, encodeDigit, rfcDigit]
  rw [hmask, hq, List.map_map]
  rfl

/-- The encoder of the library computes base32 as RFC 4648 words it, on every
list of bytes. -/
theorem encodeBlocks_eq_rfcBase32 (src : List Nat) (h : ∀ b ∈ src, b < 256) :
    encodeBlocks src = rfcBase32 src := by
  induction src using encodeBlocks.induct with
  | case1 => simp [encodeBlocks, rfcBase32]
  | case2 s0 s1 s2 s3 s4 rest ih =>
    have hq : ∀ b ∈ [s0, s1, s2, s3, s4], b < 256 := by
      intro b hb
      exact h b (by simp at hb ⊢; tauto)
    have hr : ∀ b ∈ rest, b < 256 := fun b hb => h b (by simp [hb])
    simp only [encodeBlocks, rfcBase32]
    rw [quantum_digits_rfc _ hq, ih hr]
  | case3 src h1 h2 =>
    have hlt := length_lt_five src h2
    rw [encodeBlocks, rfcBase32]
    · rw [List.map_take, quantum_digits_rfc src h, ← List.map_take, List.take_range]
      congr 2
      omega
    · exact h1
    · exact h2
    · exact h1
    · exact h2

/-- Save on the upsert path returns the session of the identifier step, on
success and on failure. -/
theorem Save_session_upsert_path (m : MongoStore) (env : Env) (r : Request)
    (w : ResponseWriter) (s : sessions.Session) (hage : 0 ≤ s.Options.MaxAge) :
    (m.Save env r w s).session = assignID env s := by
  rw [Save_upsert_path m env r w s hage]
  split
  · rfl
  · split <;> rfl

/-- Save on the delete path returns the session it was given. -/
theorem Save_session_delete_path (m : MongoStore) (env : Env) (r : Request)
    (w : ResponseWriter) (s : sessions.Session) (hage : s.Options.MaxAge < 0) :
    (m.Save env r w s).session = s := by
  simp only [MongoStore.Save, hage, if_true, MongoStore.delete]
  repeat (first | rfl | split)

/-- C7. Identifier shape: on the upsert path (max-age at least 0), a session
with an empty identifier is assigned the text the base32 encoder of the
library gives for the 32 bytes the random source returned; that text is the
unpadded standard base32 encoding of those bytes as RFC 4648 words it, has
length exactly 52 and consists only of characters in A to Z and 2 to 7. A
session whose identifier is not empty keeps it through Save, on either path. -/
theorem Save_identifier_shape (m : MongoStore) (env : Env) (r : Request) (w : ResponseWriter)
    (s : sessions.Session) :
    (0 ≤ s.Options.MaxAge → s.ID = "" → (env.GenerateRandomKey 32).length = 32 →
        (∀ b ∈ env.GenerateRandomKey 32, b < 256) →
        (m.Save env r w s).session.ID
            = base32RawStdEncoding.EncodeToString (env.GenerateRandomKey 32) ∧
          (m.Save env r w s).session.ID = String.mk (rfcBase32 (env.GenerateRandomKey 32)) ∧
          (m.Save env r w s).session.ID.length = 52 ∧
          ∀ c ∈ (m.Save env r w s).session.ID.toList, isBase32Char c) ∧
      (s.ID ≠ "" → (m.Save env r w s).session.ID = s.ID) := by
  constructor
  · intro hage hid hlen hbytes
    rw [Save_session_upsert_path m env r w s hage]
    have hID : (assignID env s).ID
        = base32RawStdEncoding.EncodeToString (env.GenerateRandomKey 32) := by
      simp [assignID, hid]
    rw [hID]
    refine ⟨rfl, ?_, ?_, ?_⟩
    · simp only [base32RawStdEncoding.EncodeToString,
        encodeBlocks_eq_rfcBase32 _ hbytes]
    · simp only [base32RawStdEncoding.EncodeToString, String.length_mk, encodeBlocks_length,
        hlen]
    · exact encodeBlocks_chars _
  · intro hid
    by_cases hage : s.Options.MaxAge < 0
    · rw [Save_session_delete_path m env r w s hage]
    · rw [Save_session_upsert_path m env r w s (not_lt.mp hage)]
      simp [assignID, hid]

/-- Witness of C7 on the sample store: the bytes 0 to 31 give an identifier
of 52 base32 characters, and the identifier ABC is kept. -/
theorem Save_identifier_shape_witness :
    ((sampleStore.Save sampleEnv (requestWith "sid" "") [] (sessionWith "" sampleValues 3600)).session.ID
        = "AAAQEAYEAUDAOCAJBIFQYDIOB4IBCEQTCQKRMFYYDENBWHA5DYPQ" ∧
      (sampleStore.Save sampleEnv (requestWith "sid" "") []
        (sessionWith "" sampleValues 3600)).session.ID.length = 52) ∧
      (sampleStore.Save sampleEnv (requestWith "sid" "") []
        (sessionWith "ABC" sampleValues 3600)).session.ID = "ABC" :=
  ⟨by
      have h := (Save_identifier_shape sampleStore sampleEnv (requestWith "sid" "") []
        (sessionWith "" sampleValues 3600)).1 (by decide) rfl (by decide) (by decide)
      exact ⟨h.1.trans (by decide), h.2.2.1⟩,
    (Save_identifier_shape sampleStore sampleEnv (requestWith "sid" "") []
      (sessionWith "ABC" sampleValues 3600)).2 (by decide)⟩

/-- C6. Invalid reserved field: on the upsert path (max-age at least 0), when
the values mapping holds the key modified with a value that is not a time,
Save returns the invalid modified value error, leaves the collection as it was
(no call is issued on it) and does not call the set operation of the token
carrier. -/
theorem Save_invalid_modified (m : MongoStore) (env : Env) (r : Request) (w : ResponseWriter)
    (s : sessions.Session) (v : Value) (hage : 0 ≤ s.Options.MaxAge)
    (hkey : s.Values.index (.str "modified") = some v) (hnot : ∀ t, v ≠ .time t) :
    (m.Save env r w s).err = some (.text "mongostore: invalid modified value") ∧
      (m.Save env r w s).coll.docs = m.coll.docs ∧
      (m.Save env r w s).coll.log = m.coll.log ∧
      (m.Save env r w s).w = w := by
  obtain ⟨_, hv, _, _⟩ := assignID_fields env s
  have hu : m.upsert env (assignID env s) =
      { session := assignID env s, err := some (.text "mongostore: invalid modified value")
        coll := m.coll } := by
    cases v with
    | time t => exact absurd rfl (hnot t)
    | null => simp only [MongoStore.upsert, hv, hkey]
    | bool b => simp only [MongoStore.upsert, hv, hkey]
    | int n => simp only [MongoStore.upsert, hv, hkey]
    | str x => simp only [MongoStore.upsert, hv, hkey]
  rw [Save_upsert_path m env r w s hage, hu]
  exact ⟨rfl, rfl, rfl, rfl⟩

/-- Witness of C6 on the collection with one record. -/
theorem Save_invalid_modified_witness :
    (oneRecordStore.Save sampleEnv (requestWith "sid" "") []
        (sessionWith "ABC" invalidValues 3600)).err
        = some (.text "mongostore: invalid modified value") ∧
      (oneRecordStore.Save sampleEnv (requestWith "sid" "") []
        (sessionWith "ABC" invalidValues 3600)).coll.docs = oneRecordStore.coll.docs ∧
      (oneRecordStore.Save sampleEnv (requestWith "sid" "") []
        (sessionWith "ABC" invalidValues 3600)).coll.log = oneRecordStore.coll.log ∧
      (oneRecordStore.Save sampleEnv (requestWith "sid" "") []
        (sessionWith "ABC" invalidValues 3600)).w = [] :=
  Save_invalid_modified oneRecordStore sampleEnv (requestWith "sid" "") []
    (sessionWith "ABC" invalidValues 3600) (.str "yesterday") (by decide) (by rfl)
    (fun t h => by cases h)

/-- C5. Modified-pin: after a successful Save on the upsert path, the record
keyed by the identifier of the session holds the encoded values, and its
modified field is the time under the key modified when the values mapping has
one, and the wall-clock time read by that Save when the key is absent. -/
theorem Save_modified_pin (m : MongoStore) (env : Env) (r : Request) (w : ResponseWriter)
    (s : sessions.Session) (hage : 0 ≤ s.Options.MaxAge)
    (hok : (m.Save env r w s).err = none) :
    (∀ t, s.Values.index (.str "modified") = some (.time t) →
        ∃ data, EncodeMultiValues s.name s.Values m.Codecs = .ok data ∧
          (m.Save env r w s).coll.docs (m.Save env r w s).session.ID
            = some { Id := (m.Save env r w s).session.ID, Data := data, Modified := t }) ∧
      (s.Values.index (.str "modified") = none →
        ∃ data, EncodeMultiValues s.name s.Values m.Codecs = .ok data ∧
          (m.Save env r w s).coll.docs (m.Save env r w s).session.ID
            = some { Id := (m.Save env r w s).session.ID, Data := data,
                     Modified := env.Now }) := by
  obtain ⟨modified, data, cookie, h1, h2, _, h4, _, h6⟩ := Save_success m env r w s hage hok
  rw [h4, h6]
  constructor
  · intro t ht
    have hm : modified = t := by
      simp only [modifiedOf, ht] at h1
      injection h1 with h1
      exact h1.symm
    exact ⟨data, h2, by simp [hm]⟩
  · intro hnone
    have hm : modified = env.Now := by
      simp only [modifiedOf, hnone] at h1
      injection h1 with h1
      exact h1.symm
    exact ⟨data, h2, by simp [hm]⟩

/-- Witness of C5 on the sample store: a pinned time 42 is the modified field of
the record, and without the key the clock of the sample environment is. -/
theorem Save_modified_pin_witness :
    (sampleStore.Save sampleEnv (requestWith "sid" "") []
        (sessionWith "ABC" pinnedValues 3600)).coll.docs "ABC"
        = some { Id := "ABC", Data := "modified=42", Modified := 42 } ∧
      (sampleStore.Save sampleEnv (requestWith "sid" "") []
        (sessionWith "ABC" sampleValues 3600)).coll.docs "ABC"
        = some { Id := "ABC", Data := "user=alice", Modified := 1700000000 } := by
  obtain ⟨d1, hd1, h1⟩ := (Save_modified_pin sampleStore sampleEnv (requestWith "sid" "") []
    (sessionWith "ABC" pinnedValues 3600) (by decide) (by rfl)).1 42 (by rfl)
  obtain ⟨d2, hd2, h2⟩ := (Save_modified_pin sampleStore sampleEnv (requestWith "sid" "") []
    (sessionWith "ABC" sampleValues 3600) (by decide) (by rfl)).2 (by rfl)
  have e1 : d1 = "modified=42" := by
    have : EncodeMultiValues "sid" pinnedValues [sampleCodec] = .ok "modified=42" := by rfl
    have hd1b : EncodeMultiValues "sid" pinnedValues [sampleCodec] = .ok d1 := hd1
    rw [this] at hd1b
    injection hd1b with h
    exact h.symm
  have e2 : d2 = "user=alice" := by
    have : EncodeMultiValues "sid" sampleValues [sampleCodec] = .ok "user=alice" := by rfl
    have hd2b : EncodeMultiValues "sid" sampleValues [sampleCodec] = .ok d2 := hd2
    rw [this] at hd2b
    injection hd2b with h
    exact h.symm
  subst e1
  subst e2
  exact ⟨h1, h2⟩

/-- Counterexample to C4 as stated: with max-age below zero and a delete-one call
that fails at the driver level, Save returns that error instead of nil, does
not call the set operation of the token carrier, and the record is still there. -/
theorem Save_delete_failure :
    (faultyStore.Save sampleEnv (requestWith "sid" "ABC") []
        (sessionWith "ABC" sampleValues (-1))).err
        = some (.text "client is disconnected") ∧
      (faultyStore.Save sampleEnv (requestWith "sid" "ABC") []
        (sessionWith "ABC" sampleValues (-1))).w = [] ∧
      (faultyStore.Save sampleEnv (requestWith "sid" "ABC") []
        (sessionWith "ABC" sampleValues (-1))).coll.docs "ABC"
        = some { Id := "ABC", Data := "user=alice", Modified := 5 } :=
  ⟨by rfl, by rfl, by rfl⟩

/-- C4, as the code has it. Deletion: for a session with max-age below zero,
provided the delete-one call reports no driver error, Save removes the record
keyed by the identifier of the session (a missing record is not an error),
calls the set operation of the token carrier with the name of the session, an
empty value and the options of the session, returns nil, issues no other call
on the collection, leaves every other record alone and leaves the session
(its identifier too) as it was; afterwards no record has that identifier, so
New with a cookie that decodes to it is a soft-miss. If the delete-one call
fails, Save returns that error, does not call the token carrier, and leaves
the session and every record as they were. -/
theorem Save_delete_path (m : MongoStore) (env : Env) (r : Request) (w : ResponseWriter)
    (s : sessions.Session) (hage : s.Options.MaxAge < 0) :
    (m.coll.fault (.DeleteOne .TODO (makeFilterByID s.ID)) = none →
      (m.Save env r w s).err = none ∧
        (m.Save env r w s).w = w ++ [{ name := s.name, value := "", options := s.Options }] ∧
        (m.Save env r w s).session = s ∧
        (m.Save env r w s).coll.log
          = m.coll.log ++ [.DeleteOne .TODO (makeFilterByID s.ID)] ∧
        (m.Save env r w s).coll.docs s.ID = none ∧
        (∀ k, k ≠ s.ID → (m.Save env r w s).coll.docs k = m.coll.docs k) ∧
        (∀ (f : DbCall → Option Error) (r2 : Request) (cook : String),
          m.Token.GetToken r2 s.name = .ok cook →
          DecodeMultiString s.name cook m.Codecs = .ok s.ID →
          (({ m with coll := { (m.Save env r w s).coll with fault := f } } : MongoStore).New
              r2 s.name).session.IsNew = true ∧
            (({ m with coll := { (m.Save env r w s).coll with fault := f } } : MongoStore).New
              r2 s.name).err = none)) ∧
      (∀ e, m.coll.fault (.DeleteOne .TODO (makeFilterByID s.ID)) = some e →
        (m.Save env r w s).err = some e ∧
          (m.Save env r w s).w = w ∧
          (m.Save env r w s).session = s ∧
          (m.Save env r w s).coll.log
            = m.coll.log ++ [.DeleteOne .TODO (makeFilterByID s.ID)] ∧
          (m.Save env r w s).coll.docs = m.coll.docs) := by
  constructor
  · intro hok
    have hS : m.Save env r w s =
        { session := s, err := none
          coll := { m.coll with
            docs := fun k => if k = s.ID then none else m.coll.docs k
            log := m.coll.log ++ [.DeleteOne .TODO (makeFilterByID s.ID)] }
          w := w ++ [{ name := s.name, value := "", options := s.Options }] } := by
      simp [MongoStore.Save, hage, MongoStore.delete, Collection.DeleteOne,
        filterID_makeFilterByID, hok, TokenGetSeter.SetToken, sessions.Session.Name]
    rw [hS]
    refine ⟨rfl, rfl, rfl, rfl, by simp, fun k hk => by simp [hk], ?_⟩
    intro f r2 cook htok hdec
    exact New_of_load_failure _ r2 s.name cook s.ID htok hdec
      ((load_err_iff _ _).2 (Or.inr (Or.inl (by simp [MongoStore.candidate]))))
  · intro e hfault
    have hS : m.Save env r w s =
        { session := s, err := some e
          coll := { m.coll with
            log := m.coll.log ++ [.DeleteOne .TODO (makeFilterByID s.ID)] }
          w := w } := by
      simp [MongoStore.Save, hage, MongoStore.delete, Collection.DeleteOne, hfault]
    rw [hS]
    exact ⟨rfl, rfl, rfl, rfl, rfl⟩

/-- Witness of the amended C4: on the collection with one record the record is
removed and the clearing cookie is set; on the collection whose delete-one
calls fail, Save returns the driver error and sets no cookie. -/
theorem Save_delete_path_witness :
    ((oneRecordStore.Save sampleEnv (requestWith "sid" "ABC") []
        (sessionWith "ABC" sampleValues (-1))).err = none ∧
      (oneRecordStore.Save sampleEnv (requestWith "sid" "ABC") []
        (sessionWith "ABC" sampleValues (-1))).w
        = [{ name := "sid", value := "", options := { sampleOptions with MaxAge := -1 } }] ∧
      (oneRecordStore.Save sampleEnv (requestWith "sid" "ABC") []
        (sessionWith "ABC" sampleValues (-1))).coll.docs "ABC" = none) ∧
      ((faultyStore.Save sampleEnv (requestWith "sid" "ABC") []
        (sessionWith "ABC" sampleValues (-1))).err = some (.text "client is disconnected") ∧
      (faultyStore.Save sampleEnv (requestWith "sid" "ABC") []
        (sessionWith "ABC" sampleValues (-1))).w = []) :=
  have h := (Save_delete_path oneRecordStore sampleEnv (requestWith "sid" "ABC") []
    (sessionWith "ABC" sampleValues (-1)) (by decide)).1 (by rfl)
  have g := (Save_delete_path faultyStore sampleEnv (requestWith "sid" "ABC") []
    (sessionWith "ABC" sampleValues (-1)) (by decide)).2 (.text "client is disconnected")
    (by rfl)
  ⟨⟨h.1, h.2.1, h.2.2.2.2.1⟩, ⟨g.1, g.2.1⟩⟩

/-- The conversion to int32 keeps a value that fits in 32 bits. -/
theorem int32_of_fits (x : Int) (hlo : -2 ^ 31 ≤ x) (hhi : x < 2 ^ 31) : int32 x = x := by
  unfold int32
  omega

/-- What NewMongoStore does about the index. With TTL requested it issues
exactly one index creation, under the background context, on the key modified,
background and sparse, whose expire-after-seconds is the max-age converted to
int32; when that call fails no store is returned. Without TTL it issues no
call and returns a store. -/
theorem NewMongoStore_index (codecs : List (List Nat) → List Codec) (c : Collection)
    (maxAge : Int) (keyPairs : List (List Nat)) :
    (NewMongoStore codecs c maxAge true keyPairs).coll.log
        = c.log ++ [.CreateOne .Background
            { Keys := [("modified", 1)]
              Options := { Background := some true, Sparse := some true,
                           ExpireAfterSeconds := some (int32 maxAge) } }] ∧
      (c.fault (.CreateOne .Background
            { Keys := [("modified", 1)]
              Options := { Background := some true, Sparse := some true,
                           ExpireAfterSeconds := some (int32 maxAge) } }) ≠ none →
        (NewMongoStore codecs c maxAge true keyPairs).store = none) ∧
      (c.fault (.CreateOne .Background
            { Keys := [("modified", 1)]
              Options := { Background := some true, Sparse := some true,
                           ExpireAfterSeconds := some (int32 maxAge) } }) = none →
        (NewMongoStore codecs c maxAge true keyPairs).store.isSome = true ∧
          (NewMongoStore codecs c maxAge true keyPairs).coll.indexes
            = c.indexes ++ [{ Keys := [("modified", 1)]
                              Options := { Background := some true, Sparse := some true,
                                           ExpireAfterSeconds := some (int32 maxAge) } }]) ∧
      ((NewMongoStore codecs c maxAge false keyPairs).coll.log = c.log ∧
        (NewMongoStore codecs c maxAge false keyPairs).coll.indexes = c.indexes ∧
        (NewMongoStore codecs c maxAge false keyPairs).store.isSome = true) := by
  refine ⟨?_, ?_, ?_, ?_⟩
  · cases hf : c.fault (.CreateOne .Background
            { Keys := [("modified", 1)]
              Options := { Background := some true, Sparse := some true,
                           ExpireAfterSeconds := some (int32 maxAge) } }) with
    | none => simp [NewMongoStore, Collection.CreateOne, hf]
    | some e => simp [NewMongoStore, Collection.CreateOne, hf]
  · intro h
    cases hf : c.fault (.CreateOne .Background
            { Keys := [("modified", 1)]
              Options := { Background := some true, Sparse := some true,
                           ExpireAfterSeconds := some (int32 maxAge) } }) with
    | none => exact absurd hf h
    | some e => simp [NewMongoStore, Collection.CreateOne, hf]
  · intro h
    simp [NewMongoStore, Collection.CreateOne, h]
  · simp [NewMongoStore]

/-- C9 at two failing inputs. With TTL requested and max-age 4294970896 (two to
the 32 plus 3600), the one index creation NewMongoStore issues has
expire-after-seconds 3600, not the configured max-age, while the options of the
store it returns keep max-age 4294970896; with max-age 2147483648 (two to the
31) the expire-after-seconds is -2147483648. -/
theorem NewMongoStore_expire_after_wraps :
    (NewMongoStore (fun _ => [sampleCodec]) emptyCollection 4294970896 true []).coll.log
        = [.CreateOne .Background
            { Keys := [("modified", 1)]
              Options := { Background := some true, Sparse := some true,
                           ExpireAfterSeconds := some 3600 } }] ∧
      ((NewMongoStore (fun _ => [sampleCodec]) emptyCollection 4294970896 true []).store.map
        fun st => st.Options.MaxAge) = some 4294970896 ∧
      (NewMongoStore (fun _ => [sampleCodec]) emptyCollection 2147483648 true []).coll.log
        = [.CreateOne .Background
            { Keys := [("modified", 1)]
              Options := { Background := some true, Sparse := some true,
                           ExpireAfterSeconds := some (-2147483648) } }] := by
  refine ⟨?_, ?_, ?_⟩
  · rw [(NewMongoStore_index (fun _ => [sampleCodec]) emptyCollection 4294970896 []).1]
    simp [emptyCollection, int32]
  · simp [NewMongoStore, Collection.CreateOne, emptyCollection, MongoStore.MaxAge]
  · rw [(NewMongoStore_index (fun _ => [sampleCodec]) emptyCollection 2147483648 []).1]
    simp [emptyCollection, int32]

/-- Save on the upsert path either fails and leaves the response writer alone,
or succeeds. -/
theorem Save_w_of_err (m : MongoStore) (env : Env) (r : Request) (w : ResponseWriter)
    (s : sessions.Session) (hage : 0 ≤ s.Options.MaxAge)
    (herr : (m.Save env r w s).err ≠ none) : (m.Save env r w s).w = w := by
  rw [Save_upsert_path m env r w s hage] at herr ⊢
  split
  · rfl
  · split
    · rfl
    · rename_i h1 _ _ h2
      simp [h1, h2] at herr

/-- When Save hands the token carrier a cookie, Save succeeds: on the upsert path, when
the values mapping has no key modified or a time under it, the codec set
encodes the values and the identifier, and the update-by-id call does not
fail, Save returns nil and hands the token carrier the encoded identifier. -/
theorem Save_hands_cookie (m : MongoStore) (env : Env) (r : Request) (w : ResponseWriter)
    (s : sessions.Session) (modified : Time) (data cookie : String)
    (hage : 0 ≤ s.Options.MaxAge)
    (hmod : modifiedOf env s = .ok modified)
    (hdata : EncodeMultiValues s.name s.Values m.Codecs = .ok data)
    (hcookie : EncodeMultiString s.name (assignID env s).ID m.Codecs = .ok cookie)
    (hdb : m.coll.fault (.UpdateByID .TODO (assignID env s).ID
      { Id := (assignID env s).ID, Data := data, Modified := modified } true) = none) :
    (m.Save env r w s).err = none ∧
      (m.Save env r w s).w = w ++ [{ name := s.name, value := cookie, options := s.Options }] := by
  obtain ⟨hn, hv, _, _⟩ := assignID_fields env s
  have hu : (m.upsert env (assignID env s)).err = none := by
    simp only [MongoStore.upsert, sessions.Session.Name, hn, hv]
    simp only [modifiedOf] at hmod
    cases hm : s.Values.index (.str "modified") with
    | none =>
      simp only [hm] at hmod ⊢
      injection hmod with hmod
      subst hmod
      simp [hdata, Collection.UpdateByID, hdb]
    | some val =>
      cases val with
      | time t =>
        simp only [hm] at hmod ⊢
        injection hmod with hmod
        subst hmod
        simp [hdata, Collection.UpdateByID, hdb]
      | null => simp [hm] at hmod
      | bool b => simp [hm] at hmod
      | int n => simp [hm] at hmod
      | str x => simp [hm] at hmod
  rw [Save_upsert_path m env r w s hage]
  simp [hu, hcookie]

/-- C1. Round trip: assume the codec set decodes under the name of the session
what it encoded under it, and the collection behaves as a map keyed by id (no
call fails at the driver level). For a session with max-age at least 0, when
Save hands the token carrier a cookie value and a request carries that value
for the name, New on the store after Save returns a session with is-new
false, a nil error, the values of the saved session and the identifier under
which Save persisted the record. -/
theorem Save_New_round_trip (m : MongoStore) (env : Env) (r r2 : Request) (w : ResponseWriter)
    (s : sessions.Session) (cookie : String)
    (hlawID : ∀ x c, EncodeMultiString s.name x m.Codecs = .ok c →
      DecodeMultiString s.name c m.Codecs = .ok x)
    (hlawV : ∀ x d, EncodeMultiValues s.name x m.Codecs = .ok d →
      DecodeMultiValues s.name d m.Codecs = .ok x)
    (hmap : ∀ call, m.coll.fault call = none)
    (hage : 0 ≤ s.Options.MaxAge)
    (hset : (m.Save env r w s).w
      = w ++ [{ name := s.name, value := cookie, options := s.Options }])
    (hreq : m.Token.GetToken r2 s.name = .ok cookie) :
    (({ m with coll := (m.Save env r w s).coll } : MongoStore).New r2 s.name).session.IsNew
        = false ∧
      (({ m with coll := (m.Save env r w s).coll } : MongoStore).New r2 s.name).err = none ∧
      (({ m with coll := (m.Save env r w s).coll } : MongoStore).New r2 s.name).session.Values
        = s.Values ∧
      (({ m with coll := (m.Save env r w s).coll } : MongoStore).New r2 s.name).session.ID
        = (m.Save env r w s).session.ID ∧
      ∃ rec, (m.Save env r w s).coll.docs (m.Save env r w s).session.ID = some rec ∧
        rec.Id = (m.Save env r w s).session.ID := by
  have hok : (m.Save env r w s).err = none := by
    by_contra herr
    have hw := Save_w_of_err m env r w s hage herr
    rw [hw] at hset
    have hlen := congrArg List.length hset
    simp at hlen
  obtain ⟨modified, data, cookie2, _, h2, h3, h4, h5, h6⟩ := Save_success m env r w s hage hok
  have hck : cookie2 = cookie := by
    rw [h5] at hset
    have h := List.append_cancel_left hset
    simp at h
    exact h
  subst hck
  have hdec := hlawID _ _ h3
  have hval := hlawV _ _ h2
  rw [h4, h6]
  have hN := New_of_decoded
    ({ m with coll :=
        { m.coll with
          docs := fun k =>
            if k = (assignID env s).ID then
              some { Id := (assignID env s).ID, Data := data, Modified := modified }
            else m.coll.docs k
          log := m.coll.log ++
            [.UpdateByID .TODO (assignID env s).ID
              { Id := (assignID env s).ID, Data := data, Modified := modified } true] } } :
      MongoStore)
    r2 s.name cookie2 (assignID env s).ID hreq hdec
  rw [hN]
  simp [MongoStore.load, Collection.FindOne, filterID_makeFilterByID, hmap,
    MongoStore.candidate, sessions.Session.Name, hval]

/-- The sample codec decodes what it encoded. -/
theorem sampleCodec_law (name : String) :
    (∀ x c, EncodeMultiString name x [sampleCodec] = .ok c →
      DecodeMultiString name c [sampleCodec] = .ok x) ∧
    (∀ x d, EncodeMultiValues name x [sampleCodec] = .ok d →
      DecodeMultiValues name d [sampleCodec] = .ok x) := by
  constructor
  · intro x c h
    simp only [EncodeMultiString, DecodeMultiString, multi, multiLoop, sampleCodec,
      Codec.EncodeString, Codec.DecodeString, List.length_singleton] at h ⊢
    by_cases hx : x = ""
    · simp [hx] at h
    · simp [hx] at h
      subst h
      simp [hx]
  · intro x d h
    simp only [EncodeMultiValues, DecodeMultiValues, multi, multiLoop, sampleCodec,
      Codec.EncodeValues, Codec.DecodeValues, List.length_singleton] at h ⊢
    by_cases h1 : x = sampleValues
    · simp [h1] at h
      subst h
      simp [h1]
    · by_cases h2 : x = pinnedValues
      · subst h2
        have hne : pinnedValues ≠ sampleValues := by decide
        simp [hne] at h
        subst h
        simp [hne]
      · simp [h1, h2] at h

/-- Witness of C1 on the sample store: a new session with the sample values is
saved under a generated identifier and read back through its cookie. -/
theorem Save_New_round_trip_witness :
    (({ sampleStore with
          coll := (sampleStore.Save sampleEnv (requestWith "sid" "") []
            (sessionWith "" sampleValues 3600)).coll } : MongoStore).New
        (requestWith "sid" "AAAQEAYEAUDAOCAJBIFQYDIOB4IBCEQTCQKRMFYYDENBWHA5DYPQ")
        "sid").session.IsNew = false ∧
      (({ sampleStore with
          coll := (sampleStore.Save sampleEnv (requestWith "sid" "") []
            (sessionWith "" sampleValues 3600)).coll } : MongoStore).New
        (requestWith "sid" "AAAQEAYEAUDAOCAJBIFQYDIOB4IBCEQTCQKRMFYYDENBWHA5DYPQ")
        "sid").session.Values = sampleValues :=
  have h := Save_New_round_trip sampleStore sampleEnv (requestWith "sid" "")
    (requestWith "sid" "AAAQEAYEAUDAOCAJBIFQYDIOB4IBCEQTCQKRMFYYDENBWHA5DYPQ") []
    (sessionWith "" sampleValues 3600) "AAAQEAYEAUDAOCAJBIFQYDIOB4IBCEQTCQKRMFYYDENBWHA5DYPQ"
    (sampleCodec_law "sid").1 (sampleCodec_law "sid").2 (fun _ => rfl) (by decide) (by rfl)
    (by rfl)
  ⟨h.1, h.2.2.1⟩

end mongostore
